import Mathlib

/-!
A shallow embedding of the tic-tac-toe relay server (`server.js`) and proofs
about its room registry and game engine: room creation, join, move
validation, win/draw detection, restart, and disconnect cleanup.

Connections (`ws` objects) are modelled by natural-number identities; the
registry (`rooms`, a JS `Map` keyed by room code) is an association list kept
in insertion order; a JS board cell (the strings `""`, `"X"`, `"O"`) is
`Option Sym`; the JS numeric `msg.index` value is modelled by `JIdx`
(not-a-number values, `NaN`, and rationals) so that the server's
`typeof`/range checks and the semantics of array lookup at non-integer
indices are captured faithfully.  Handlers are pure functions from a registry
to a registry paired with the list of (recipient, message) sends they issue.
-/

namespace TTT

/-- A player symbol, the JS strings `"X"` and `"O"`. -/
inductive Sym
| X
| O
deriving DecidableEq, Repr

/-- `room.turn = room.turn === "X" ? "O" : "X"`. -/
def Sym.other : Sym → Sym
| .X => .O
| .O => .X

/-- A board cell: `none` is the empty string `""`, `some s` the symbol. -/
abbrev Cell := Option Sym

/-- The JS value of `msg.index`: not a number at all, `NaN`, or a numeric
value (JS numbers restricted to the rationals, which include every value the
validation logic distinguishes). -/
inductive JIdx
| notNum
| nan
| num (q : ℚ)
deriving DecidableEq

/-- `typeof i === "number"` (`NaN` is a number in JS). -/
def JIdx.isNumber : JIdx → Bool
| .notNum => false
| _ => true

/-- `i < 0` with JS comparison semantics: false for `NaN`. -/
def JIdx.ltZero : JIdx → Bool
| .num q => decide (q < 0)
| _ => false

/-- `i > 8` with JS comparison semantics: false for `NaN`. -/
def JIdx.gtEight : JIdx → Bool
| .num q => decide (q > 8)
| _ => false

/-- `board[i]` for a JS index value: defined (`some cell`) exactly when the
index is a non-negative integer inside the array, `undefined` (`none`)
otherwise — in particular at `NaN` and at non-integer rationals. -/
def boardAt (b : List Cell) : JIdx → Option Cell
| .num q => if q.den = 1 ∧ 0 ≤ q.num then b.get? q.num.toNat else none
| _ => none

/-- `board[i] = s` for a JS index value; only ever executed by the server
after `board[i] === ""`, hence only at integer indices inside the array. -/
def boardSet (b : List Cell) (i : JIdx) (s : Sym) : List Cell :=
  match i with
  | .num q => if q.den = 1 ∧ 0 ≤ q.num then b.set q.num.toNat (some s) else b
  | _ => b

/-- The `symbols` map of a room (`Map<ws, "X"|"O">`), as an association list. -/
abbrev SymMap := List (ℕ × Sym)

/-- `room.symbols.get(ws)`. -/
def symGet (m : SymMap) (w : ℕ) : Option Sym :=
  (m.find? (fun e => e.1 == w)).map (fun e => e.2)

/-- `room.symbols.set(ws, s)`: replace in place if the key exists, else append. -/
def symSet (m : SymMap) (w : ℕ) (s : Sym) : SymMap :=
  if m.any (fun e => e.1 == w) then m.map (fun e => if e.1 == w then (w, s) else e)
  else m ++ [(w, s)]

/-- `room.symbols.delete(ws)`. -/
def symDel (m : SymMap) (w : ℕ) : SymMap :=
  m.filter (fun e => e.1 != w)

/-- One room: the two player slots (`players: [ws|null, ws|null]`), the
symbol map, the board, whose turn it is, and the game-over flag. -/
structure Room where
  p0 : Option ℕ
  p1 : Option ℕ
  symbols : SymMap
  board : List Cell
  turn : Sym
  gameOver : Bool
deriving DecidableEq, Repr

/-- `room.players.includes(ws)`. -/
def Room.includesWs (r : Room) (w : ℕ) : Bool :=
  r.p0 == some w || r.p1 == some w

/-- `room.players.filter(Boolean).length`. -/
def Room.playersCount (r : Room) : ℕ :=
  (if r.p0.isSome then 1 else 0) + (if r.p1.isSome then 1 else 0)

/-- `room.players.indexOf(ws)` (first matching slot, `none` for `-1`). -/
def Room.indexOfWs (r : Room) (w : ℕ) : Option (Fin 2) :=
  if r.p0 == some w then some 0 else if r.p1 == some w then some 1 else none

/-- `room.players.findIndex(p => !p)` (first empty slot, `none` for `-1`). -/
def Room.freeIndex (r : Room) : Option (Fin 2) :=
  if r.p0 == none then some 0 else if r.p1 == none then some 1 else none

/-- The registry `rooms: Map<roomCode, room>`, in insertion order. -/
abbrev Registry := List (String × Room)

/-- `rooms.get(code)`. -/
def lookupRoom (R : Registry) (c : String) : Option Room :=
  (R.find? (fun e => e.1 == c)).map (fun e => e.2)

/-- `rooms.has(code)`. -/
def hasCode (R : Registry) (c : String) : Bool :=
  R.any (fun e => e.1 == c)

/-- In-place mutation of the room object stored under an existing code. -/
def setRoom (R : Registry) (c : String) (r : Room) : Registry :=
  R.map (fun e => if e.1 == c then (c, r) else e)

/-- An outbound message.  `state` carries the fields of `roomState(code)`;
`gameover`'s winner is `some s` for `"X"`/`"O"` and `none` for the draw
marker `"D"`. -/
inductive OutMsg
| joined (roomCode : String) (you : Option Sym)
| state (board : List Cell) (turn : Sym) (gameOver : Bool) (playersCount : ℕ)
| info (message : String)
| err (message : String)
| gameover (winner : Option Sym)
deriving DecidableEq

/-- The `{type:"state", ...roomState(code)}` message for a room. -/
def stateMsg (r : Room) : OutMsg :=
  .state r.board r.turn r.gameOver r.playersCount

/-- `broadcastRoom`: `room.players.forEach(p => safeSend(p, obj))` — one send
per occupied slot, in slot order. -/
def sends (r : Room) (m : OutMsg) : List (ℕ × OutMsg) :=
  (match r.p0 with | some w => [(w, m)] | none => []) ++
  (match r.p1 with | some w => [(w, m)] | none => [])

/-- `.trim()`: drop whitespace from both ends. -/
def jsTrim (s : String) : String :=
  ⟨((s.data.dropWhile Char.isWhitespace).reverse.dropWhile
      Char.isWhitespace).reverse⟩

/-- `(msg.roomCode || "").toUpperCase().trim()`. -/
def normCode (s : String) : String :=
  jsTrim ⟨s.data.map Char.toUpper⟩

/-- The alphabet of `makeRoomCode`: `"ABCDEFGHJKLMNPQRSTUVWXYZ23456789"`. -/
def roomChars : List Char :=
  "ABCDEFGHJKLMNPQRSTUVWXYZ23456789".toList

/-- `makeRoomCode()`: five characters, each chosen from `roomChars` by a
call to `Math.floor(Math.random() * chars.length)`, here the pick vector. -/
def makeRoomCode (picks : Fin 5 → Fin roomChars.length) : String :=
  ⟨(List.finRange 5).map (fun i => roomChars.get (picks i))⟩

/-- The retry loop `let code = makeRoomCode(); while (rooms.has(code)) code =
makeRoomCode();`: given the stream of pick vectors the successive calls to
`Math.random` produce, the loop returns the first collision-free code. -/
def createCode (R : Registry) (g : ℕ → Fin 5 → Fin roomChars.length)
    (h : ∃ n, hasCode R (makeRoomCode (g n)) = false) : String :=
  makeRoomCode (g (Nat.find h))

/-- The fresh room object built by the create handler. -/
def mkRoom (ws : ℕ) : Room :=
  { p0 := some ws, p1 := none, symbols := [(ws, .X)],
    board := List.replicate 9 none, turn := .X, gameOver := false }

/-- The `create` handler. -/
def createH (R : Registry) (ws : ℕ) (g : ℕ → Fin 5 → Fin roomChars.length)
    (h : ∃ n, hasCode R (makeRoomCode (g n)) = false) :
    Registry × List (ℕ × OutMsg) :=
  let code := createCode R g h
  let room := mkRoom ws
  (R ++ [(code, room)],
   [(ws, .joined code (some .X)), (ws, stateMsg room),
    (ws, .info "Комната создана. Поделись кодом с другом.")])

/-- The room update of a successful join: put the requester in the free slot
and record the symbol fixed by that slot index. -/
def joinAssign (room : Room) (ws : ℕ) (idx : Fin 2) : Room :=
  { room with
    p0 := if idx = 0 then some ws else room.p0,
    p1 := if idx = 1 then some ws else room.p1,
    symbols := symSet room.symbols ws (if idx = 0 then Sym.X else Sym.O) }

/-- The `join` handler. -/
def joinH (R : Registry) (ws : ℕ) (rawCode : String) :
    Registry × List (ℕ × OutMsg) :=
  let code := normCode rawCode
  match lookupRoom R code with
  | none => (R, [(ws, .err "Комната не найдена.")])
  | some room =>
    if room.includesWs ws then
      (R, [(ws, .joined code (symGet room.symbols ws)), (ws, stateMsg room)])
    else
      match room.freeIndex with
      | none => (R, [(ws, .err "Комната уже заполнена (2 игрока).")])
      | some idx =>
        let symbol : Sym := if idx = 0 then .X else .O
        let room' := joinAssign room ws idx
        (setRoom R code room',
         [(ws, .joined code (some symbol)), (ws, stateMsg room')] ++
         sends room' (.info "Второй игрок подключился. Можно играть!") ++
         sends room' (stateMsg room'))

/-- The `WINS` table: 3 rows, 3 columns, 2 diagonals, in source order. -/
def WINS : List (ℕ × ℕ × ℕ) :=
  [(0,1,2),(3,4,5),(6,7,8),(0,3,6),(1,4,7),(2,5,8),(0,4,8),(2,4,6)]

/-- `board[a] && board[a]===board[b] && board[a]===board[c] ? board[a] : null`
for one line. -/
def lineWinner (b : List Cell) (l : ℕ × ℕ × ℕ) : Option Sym :=
  match b.getD l.1 none with
  | none => none
  | some s =>
      if b.getD l.2.1 none = some s ∧ b.getD l.2.2 none = some s then some s
      else none

/-- The `for (const [a,b,c] of WINS)` loop with its `break`: first winning
line in the list, if any. -/
def scanWins (b : List Cell) : List (ℕ × ℕ × ℕ) → Option Sym
| [] => none
| l :: rest =>
    match lineWinner b l with
    | some s => some s
    | none => scanWins b rest

/-- The winner computed after a move, scanning `WINS` in order. -/
def findWinner (b : List Cell) : Option Sym :=
  scanWins b WINS

/-- The room update of an accepted move: write the symbol, then either end
the game (on win or draw) or flip the turn. -/
def moveUpdate (room : Room) (i : JIdx) (you : Sym) : Room :=
  let board' := boardSet room.board i you
  let winner := findWinner board'
  let draw := !winner.isSome && board'.all (fun v => v.isSome)
  if winner.isSome || draw then
    { room with board := board', gameOver := true }
  else
    { room with board := board', turn := room.turn.other }

/-- The `gameover` broadcast (if any) plus the `state` broadcast after an
accepted move. -/
def moveMsgs (room' : Room) (winner : Option Sym) : List (ℕ × OutMsg) :=
  (if room'.gameOver then sends room' (.gameover winner) else []) ++
  sends room' (stateMsg room')

/-- The `move` handler. -/
def moveH (R : Registry) (ws : ℕ) (rawCode : String) (i : JIdx) :
    Registry × List (ℕ × OutMsg) :=
  let code := normCode rawCode
  match lookupRoom R code with
  | none => (R, [])
  | some room =>
    match symGet room.symbols ws with
    | none => (R, [(ws, .err "Ты не в комнате.")])
    | some you =>
      if room.gameOver then (R, [])
      else if !i.isNumber || i.ltZero || i.gtEight then (R, [])
      else if room.playersCount < 2 then
        (R, [(ws, .err "Ждём второго игрока...")])
      else if room.turn ≠ you then
        (R, [(ws, .err "Сейчас не твой ход.")])
      else if boardAt room.board i ≠ some none then (R, [])
      else
        let room' := moveUpdate room i you
        (setRoom R code room', moveMsgs room' (findWinner room'.board))

/-- The room update of `restart`: empty board, turn `"X"`, game not over. -/
def restartUpdate (room : Room) : Room :=
  { room with board := List.replicate 9 none, turn := .X, gameOver := false }

/-- The `restart` handler. -/
def restartH (R : Registry) (ws : ℕ) (rawCode : String) :
    Registry × List (ℕ × OutMsg) :=
  let code := normCode rawCode
  match lookupRoom R code with
  | none => (R, [])
  | some room =>
    match symGet room.symbols ws with
    | none => (R, [])
    | some _ =>
      let room' := restartUpdate room
      (setRoom R code room',
       sends room' (.info "Игра перезапущена.") ++ sends room' (stateMsg room'))

/-- The room update of `cleanupWs` on the matching room: vacate the slot and
delete the symbol entry. -/
def cleanupRoom (room : Room) (ws : ℕ) (idx : Fin 2) : Room :=
  { room with
    p0 := if idx = 0 then none else room.p0,
    p1 := if idx = 1 then none else room.p1,
    symbols := symDel room.symbols ws }

/-- `cleanupWs(ws)`: scan the registry in order for the first room holding
this connection; vacate the slot, delete the symbol entry, broadcast to the
remaining occupants, delete the room if both slots are now empty, and stop. -/
def cleanupWs : Registry → ℕ → Registry × List (ℕ × OutMsg)
| [], _ => ([], [])
| (c, room) :: rest, ws =>
    match Room.indexOfWs room ws with
    | some idx =>
      let room' := cleanupRoom room ws idx
      let msgs := sends room' (.info "Игрок отключился. Можно подключиться снова.") ++
        sends room' (stateMsg room')
      if room'.p0 = none ∧ room'.p1 = none then (rest, msgs)
      else ((c, room') :: rest, msgs)
    | none =>
      let r' := cleanupWs rest ws
      ((c, room) :: r'.1, r'.2)

/-- Registries reachable from the empty initial registry by any sequence of
create / join / move / restart intents and disconnect notifications. -/
inductive Reachable : Registry → Prop
| init : Reachable []
| create (R : Registry) (ws : ℕ) (g : ℕ → Fin 5 → Fin roomChars.length)
    (h : ∃ n, hasCode R (makeRoomCode (g n)) = false) :
    Reachable R → Reachable (createH R ws g h).1
| join (R : Registry) (ws : ℕ) (raw : String) :
    Reachable R → Reachable (joinH R ws raw).1
| move (R : Registry) (ws : ℕ) (raw : String) (i : JIdx) :
    Reachable R → Reachable (moveH R ws raw i).1
| restart (R : Registry) (ws : ℕ) (raw : String) :
    Reachable R → Reachable (restartH R ws raw).1
| disconnect (R : Registry) (ws : ℕ) :
    Reachable R → Reachable (cleanupWs R ws).1

/-- The number of cells of the board holding a given symbol. -/
def cnt (s : Sym) : List Cell → ℕ
| [] => 0
| c :: rest => (if c = some s then 1 else 0) + cnt s rest

/-- The index value is an integer in `[0, 8]` (the condition the spec's
validation list names; the server's own range check admits any number). -/
def isIntIdx : JIdx → Bool
| .num q => decide (q.den = 1) && decide (0 ≤ q.num) && decide (q.num ≤ 8)
| _ => false

/-- The move-acceptance conditions of the claim: room exists, requester has
a symbol in it, game not over, integer index in `[0, 8]`, both slots
occupied, requester's symbol is the current turn, target cell empty. -/
def MoveOk (R : Registry) (ws : ℕ) (raw : String) (i : JIdx) : Prop :=
  ∃ room you, lookupRoom R (normCode raw) = some room ∧
    symGet room.symbols ws = some you ∧
    room.gameOver = false ∧
    isIntIdx i = true ∧
    room.p0.isSome = true ∧ room.p1.isSome = true ∧
    room.turn = you ∧
    boardAt room.board i = some none

/-- The observable effect of an accepted move: the addressed cell goes from
empty before the handler runs to the requester's symbol after it. -/
def MoveWrites (R : Registry) (ws : ℕ) (raw : String) (i : JIdx) : Prop :=
  ∃ room you room', lookupRoom R (normCode raw) = some room ∧
    symGet room.symbols ws = some you ∧
    lookupRoom (moveH R ws raw i).1 (normCode raw) = some room' ∧
    boardAt room.board i = some none ∧
    boardAt room'.board i = some (some you)

/-- How a move request is answered: accepted, silently ignored, or met with
one of the three error messages. -/
inductive MoveVerdict
| accepted
| ignored
| errNotInRoom
| errWaiting
| errNotYourTurn
deriving DecidableEq, Repr

/-- Modelled from the spec: the verdict predicted by the ordered validation
list of the spec's `move` description, which short-circuits on the first
failing condition and places the check that `cellIndex` is an integer in
`[0, 8]` before the both-slots-occupied and turn checks. -/
def specMoveVerdict (R : Registry) (ws : ℕ) (raw : String) (i : JIdx) :
    MoveVerdict :=
  match lookupRoom R (normCode raw) with
  | none => .ignored
  | some room =>
    match symGet room.symbols ws with
    | none => .errNotInRoom
    | some you =>
      if room.gameOver then .ignored
      else if !isIntIdx i then .ignored
      else if room.playersCount < 2 then .errWaiting
      else if room.turn ≠ you then .errNotYourTurn
      else if boardAt room.board i ≠ some none then .ignored
      else .accepted

/-- The inductive invariant behind claim C9: the symbol counts differ by 0
or 1 and, while the game is running, agree with whose turn it is. -/
def Inv9 (r : Room) : Prop :=
  (cnt Sym.X r.board = cnt Sym.O r.board ∨
   cnt Sym.X r.board = cnt Sym.O r.board + 1) ∧
  (r.gameOver = false →
    ((r.turn = Sym.X → cnt Sym.X r.board = cnt Sym.O r.board) ∧
     (r.turn = Sym.O → cnt Sym.X r.board = cnt Sym.O r.board + 1)))

/-- A concrete room with both slots taken, used to instantiate theorems. -/
def roomA : Room :=
  { p0 := some 1, p1 := some 2, symbols := [(1, Sym.X), (2, Sym.O)],
    board := List.replicate 9 none, turn := Sym.X, gameOver := false }

/-- A concrete registry holding `roomA`. -/
def regA : Registry := [("AB2CD", roomA)]

/-- A concrete room still waiting for its second player. -/
def roomHalf : Room :=
  { p0 := some 1, p1 := none, symbols := [(1, Sym.X)],
    board := List.replicate 9 none, turn := Sym.X, gameOver := false }

/-- A concrete registry holding `roomHalf`. -/
def regHalf : Registry := [("AB2CD", roomHalf)]

/-- A constant stream of pick vectors (every pick selects character 0). -/
def gA : ℕ → Fin 5 → Fin roomChars.length := fun _ _ => ⟨0, by decide⟩

/-- The rational 5/2: a JS number that passes the range check `0 ≤ i ≤ 8`
but is not an integer cell index. -/
def qHalf : ℚ := ⟨5, 2, by decide, by decide⟩

/-- A concrete full room one X move away from completing the top row. -/
def roomWin : Room :=
  { p0 := some 1, p1 := some 2, symbols := [(1, Sym.X), (2, Sym.O)],
    board := [some Sym.X, some Sym.X, none, some Sym.O, some Sym.O,
              none, none, none, none],
    turn := Sym.X, gameOver := false }

/-- A concrete registry holding `roomWin`. -/
def regWin : Registry := [("AB2CD", roomWin)]

theorem den_one_natCast {q : ℚ} (hden : q.den = 1) (hpos : 0 ≤ q.num) :
    ((q.num.toNat : ℕ) : ℚ) = q := by
  have h1 : ((q.num.toNat : ℕ) : ℤ) = q.num := Int.toNat_of_nonneg hpos
  have hq : ((q.num : ℤ) : ℚ) = q := by
    conv_rhs => rw [← Rat.num_div_den q]
    rw [hden]
    simp
  calc ((q.num.toNat : ℕ) : ℚ) = (((q.num.toNat : ℕ) : ℤ) : ℚ) := by push_cast; ring
  _ = ((q.num : ℤ) : ℚ) := by rw [h1]
  _ = q := hq

theorem isIntIdx_iff {i : JIdx} :
    isIntIdx i = true ↔ ∃ n : ℕ, n ≤ 8 ∧ i = .num (n : ℚ) := by
  constructor
  · intro h
    cases i with
    | notNum => simp [isIntIdx] at h
    | nan => simp [isIntIdx] at h
    | num q =>
      simp only [isIntIdx, Bool.and_eq_true, decide_eq_true_eq] at h
      rcases h with ⟨⟨hden, hpos⟩, hle⟩
      refine ⟨q.num.toNat, by omega, ?_⟩
      rw [den_one_natCast hden hpos]
  · rintro ⟨n, hn, rfl⟩
    simp only [isIntIdx, Bool.and_eq_true, decide_eq_true_eq,
      Rat.den_natCast, Rat.num_natCast]
    refine ⟨⟨by trivial, by omega⟩, by omega⟩

theorem boardAt_natCast (b : List Cell) (n : ℕ) :
    boardAt b (.num (n : ℚ)) = b.get? n := by
  simp [boardAt, Rat.den_natCast, Rat.num_natCast]

theorem boardSet_natCast (b : List Cell) (n : ℕ) (s : Sym) :
    boardSet b (.num (n : ℚ)) s = b.set n (some s) := by
  simp [boardSet, Rat.den_natCast, Rat.num_natCast]

theorem boardAt_eq_some {b : List Cell} {i : JIdx} {c : Cell}
    (h : boardAt b i = some c) :
    ∃ n : ℕ, i = .num (n : ℚ) ∧ b.get? n = some c := by
  cases i with
  | notNum => simp [boardAt] at h
  | nan => simp [boardAt] at h
  | num q =>
    rw [boardAt] at h
    split at h
    case isTrue hc =>
      refine ⟨q.num.toNat, ?_, h⟩
      rw [den_one_natCast hc.1 hc.2]
    case isFalse => exact absurd h (by simp)

theorem lookupRoom_nil (c : String) : lookupRoom [] c = none := rfl

theorem lookupRoom_cons (e : String × Room) (rest : Registry) (c : String) :
    lookupRoom (e :: rest) c =
      if e.1 == c then some e.2 else lookupRoom rest c := by
  by_cases hc : (e.1 == c) = true
  · simp [lookupRoom, List.find?_cons, hc]
  · simp only [Bool.not_eq_true] at hc
    simp [lookupRoom, List.find?_cons, hc]

theorem setRoom_cons (e : String × Room) (rest : Registry) (c : String)
    (r : Room) :
    setRoom (e :: rest) c r =
      (if e.1 == c then (c, r) else e) :: setRoom rest c r := rfl

theorem mem_of_lookupRoom {R : Registry} {c : String} {r : Room}
    (h : lookupRoom R c = some r) : (c, r) ∈ R := by
  induction R with
  | nil => simp [lookupRoom] at h
  | cons e rest ih =>
    rw [lookupRoom_cons] at h
    by_cases hc : (e.1 == c) = true
    · rw [if_pos hc] at h
      have he : e = (c, r) := by
        rcases e with ⟨c', r'⟩
        simp only at hc
        rw [beq_iff_eq] at hc
        simp only [Option.some.injEq] at h
        rw [hc, h]
      rw [← he]
      exact List.mem_cons_self _ _
    · rw [if_neg hc] at h
      exact List.mem_cons_of_mem _ (ih h)

theorem lookup_setRoom_self {R : Registry} {c : String} {room : Room}
    (r : Room) (h : lookupRoom R c = some room) :
    lookupRoom (setRoom R c r) c = some r := by
  induction R with
  | nil => simp [lookupRoom] at h
  | cons e rest ih =>
    rw [lookupRoom_cons] at h
    rw [setRoom_cons, lookupRoom_cons]
    by_cases hc : (e.1 == c) = true
    · rw [if_pos hc]
      simp
    · rw [if_neg hc] at h ⊢
      simp only [hc, if_false]
      exact ih h

theorem lookup_setRoom_ne {R : Registry} {c c' : String} (r : Room)
    (h : (c' == c) = false) :
    lookupRoom (setRoom R c r) c' = lookupRoom R c' := by
  induction R with
  | nil => simp [lookupRoom, setRoom]
  | cons e rest ih =>
    rw [setRoom_cons, lookupRoom_cons, lookupRoom_cons]
    by_cases hc : (e.1 == c) = true
    · have h1 : (c == c') = false := by
        rw [beq_eq_false_iff_ne] at h ⊢
        exact fun hcc => h hcc.symm
      have h2 : (e.1 == c') = false := by
        rw [beq_iff_eq] at hc
        rw [hc]
        exact h1
      rw [if_pos hc]
      simp only [h1, h2, if_false]
      exact ih
    · rw [if_neg hc]
      by_cases h2 : (e.1 == c') = true
      · simp only [h2, if_true]
      · simp only [Bool.not_eq_true] at h2
        simp only [h2, if_false]
        exact ih

theorem mem_setRoom {R : Registry} {c : String} {r : Room}
    {e : String × Room} (h : e ∈ setRoom R c r) : e ∈ R ∨ e = (c, r) := by
  rw [setRoom, List.mem_map] at h
  rcases h with ⟨a, ha, hae⟩
  by_cases hc : (a.1 == c) = true
  · rw [if_pos hc] at hae
    exact Or.inr hae.symm
  · rw [if_neg hc] at hae
    exact Or.inl (hae ▸ ha)

theorem createH_fst (R : Registry) (ws : ℕ)
    (g : ℕ → Fin 5 → Fin roomChars.length)
    (h : ∃ n, hasCode R (makeRoomCode (g n)) = false) :
    (createH R ws g h).1 = R ++ [(createCode R g h, mkRoom ws)] := rfl

theorem mem_createH {R : Registry} {ws : ℕ}
    {g : ℕ → Fin 5 → Fin roomChars.length}
    {h : ∃ n, hasCode R (makeRoomCode (g n)) = false} {e : String × Room}
    (he : e ∈ (createH R ws g h).1) : e ∈ R ∨ e.2 = mkRoom ws := by
  rw [createH_fst] at he
  rcases List.mem_append.mp he with h1 | h2
  · exact Or.inl h1
  · right
    rw [List.mem_singleton.mp h2]

theorem mem_joinH {R : Registry} {ws : ℕ} {raw : String} {e : String × Room}
    (h : e ∈ (joinH R ws raw).1) :
    e ∈ R ∨ ∃ room idx, lookupRoom R (normCode raw) = some room ∧
      room.freeIndex = some idx ∧ e.2 = joinAssign room ws idx := by
  cases hlk : lookupRoom R (normCode raw) with
  | none =>
    simp only [joinH, hlk] at h
    exact Or.inl h
  | some room =>
    by_cases hin : room.includesWs ws = true
    · simp only [joinH, hlk, hin, if_true] at h
      exact Or.inl h
    · cases hfr : room.freeIndex with
      | none =>
        simp only [joinH, hlk, hfr, Bool.not_eq_true] at h
        rw [Bool.not_eq_true] at hin
        simp only [hin, Bool.false_eq_true, if_false] at h
        exact Or.inl h
      | some idx =>
        rw [Bool.not_eq_true] at hin
        simp only [joinH, hlk, hfr, hin, Bool.false_eq_true, if_false] at h
        rcases mem_setRoom h with h1 | h2
        · exact Or.inl h1
        · right
          exact ⟨room, idx, rfl, hfr, by rw [h2]⟩

theorem mem_moveH {R : Registry} {ws : ℕ} {raw : String} {i : JIdx}
    {e : String × Room} (h : e ∈ (moveH R ws raw i).1) :
    e ∈ R ∨ ∃ room you, lookupRoom R (normCode raw) = some room ∧
      symGet room.symbols ws = some you ∧ room.gameOver = false ∧
      room.turn = you ∧ boardAt room.board i = some none ∧
      e.2 = moveUpdate room i you := by
  cases hlk : lookupRoom R (normCode raw) with
  | none =>
    simp only [moveH, hlk] at h
    exact Or.inl h
  | some room =>
    cases hsym : symGet room.symbols ws with
    | none =>
      simp only [moveH, hlk, hsym] at h
      exact Or.inl h
    | some you =>
      simp only [moveH, hlk, hsym] at h
      by_cases hgo : room.gameOver = true
      · rw [if_pos hgo] at h
        exact Or.inl h
      · rw [if_neg hgo] at h
        rw [Bool.not_eq_true] at hgo
        by_cases hnum : (!i.isNumber || i.ltZero || i.gtEight) = true
        · rw [if_pos hnum] at h
          exact Or.inl h
        · rw [if_neg hnum] at h
          by_cases hcnt : room.playersCount < 2
          · rw [if_pos hcnt] at h
            exact Or.inl h
          · rw [if_neg hcnt] at h
            by_cases htn : room.turn ≠ you
            · rw [if_pos htn] at h
              exact Or.inl h
            · rw [if_neg htn] at h
              rw [not_not] at htn
              by_cases hcell : boardAt room.board i ≠ some none
              · rw [if_pos hcell] at h
                exact Or.inl h
              · rw [if_neg hcell] at h
                rw [not_not] at hcell
                rcases mem_setRoom h with h1 | h2
                · exact Or.inl h1
                · right
                  exact ⟨room, you, rfl, hsym, hgo, htn, hcell, by rw [h2]⟩

theorem mem_restartH {R : Registry} {ws : ℕ} {raw : String}
    {e : String × Room} (h : e ∈ (restartH R ws raw).1) :
    e ∈ R ∨ ∃ room, lookupRoom R (normCode raw) = some room ∧
      e.2 = restartUpdate room := by
  cases hlk : lookupRoom R (normCode raw) with
  | none =>
    simp only [restartH, hlk] at h
    exact Or.inl h
  | some room =>
    cases hsym : symGet room.symbols ws with
    | none =>
      simp only [restartH, hlk, hsym] at h
      exact Or.inl h
    | some s =>
      simp only [restartH, hlk, hsym] at h
      rcases mem_setRoom h with h1 | h2
      · exact Or.inl h1
      · right
        exact ⟨room, rfl, by rw [h2]⟩

theorem mem_cleanupWs {R : Registry} {ws : ℕ} {e : String × Room}
    (h : e ∈ (cleanupWs R ws).1) :
    e ∈ R ∨ ∃ room idx, (e.1, room) ∈ R ∧
      Room.indexOfWs room ws = some idx ∧
      ¬((cleanupRoom room ws idx).p0 = none ∧
        (cleanupRoom room ws idx).p1 = none) ∧
      e.2 = cleanupRoom room ws idx := by
  induction R with
  | nil =>
    simp [cleanupWs] at h
  | cons hd rest ih =>
    rcases hd with ⟨c, room⟩
    cases hidx : Room.indexOfWs room ws with
    | some idx =>
      simp only [cleanupWs, hidx] at h
      by_cases hemp : (cleanupRoom room ws idx).p0 = none ∧
          (cleanupRoom room ws idx).p1 = none
      · rw [if_pos hemp] at h
        exact Or.inl (List.mem_cons_of_mem _ h)
      · rw [if_neg hemp] at h
        rcases List.mem_cons.mp h with he | he
        · right
          refine ⟨room, idx, ?_, hidx, hemp, ?_⟩
          · rw [he]
            exact List.mem_cons_self _ _
          · rw [he]
        · exact Or.inl (List.mem_cons_of_mem _ he)
    | none =>
      simp only [cleanupWs, hidx] at h
      rcases List.mem_cons.mp h with he | he
      · exact Or.inl (he ▸ List.mem_cons_self _ _)
      · rcases ih he with h1 | ⟨room', idx, hmem, hrest⟩
        · exact Or.inl (List.mem_cons_of_mem _ h1)
        · exact Or.inr ⟨room', idx, List.mem_cons_of_mem _ hmem, hrest⟩

theorem regOK_reachable (P : Room → Prop)
    (hmk : ∀ ws, P (mkRoom ws))
    (hjoin : ∀ room ws idx, P room → P (joinAssign room ws idx))
    (hmove : ∀ room i you, P room → room.gameOver = false → room.turn = you →
      boardAt room.board i = some none → P (moveUpdate room i you))
    (hrestart : ∀ room, P room → P (restartUpdate room))
    (hclean : ∀ room ws idx, P room →
      ¬((cleanupRoom room ws idx).p0 = none ∧
        (cleanupRoom room ws idx).p1 = none) →
      P (cleanupRoom room ws idx))
    {R : Registry} (hR : Reachable R) : ∀ e ∈ R, P e.2 := by
  induction hR with
  | init =>
    intro e he
    simp at he
  | create R ws g h hR ih =>
    intro e he
    rcases mem_createH he with h1 | h2
    · exact ih e h1
    · rw [h2]
      exact hmk ws
  | join R ws raw hR ih =>
    intro e he
    rcases mem_joinH he with h1 | ⟨room, idx, hlk, _, he2⟩
    · exact ih e h1
    · rw [he2]
      exact hjoin room ws idx (ih _ (mem_of_lookupRoom hlk))
  | move R ws raw i hR ih =>
    intro e he
    rcases mem_moveH he with h1 | ⟨room, you, hlk, _, hgo, hturn, hcell, he2⟩
    · exact ih e h1
    · rw [he2]
      exact hmove room i you (ih _ (mem_of_lookupRoom hlk)) hgo hturn hcell
  | restart R ws raw hR ih =>
    intro e he
    rcases mem_restartH he with h1 | ⟨room, hlk, he2⟩
    · exact ih e h1
    · rw [he2]
      exact hrestart room (ih _ (mem_of_lookupRoom hlk))
  | disconnect R ws hR ih =>
    intro e he
    rcases mem_cleanupWs he with h1 | ⟨room, idx, hmem, hidx, hemp, he2⟩
    · exact ih e h1
    · rw [he2]
      exact hclean room ws idx (ih _ hmem) hemp

theorem cnt_replicate (s : Sym) (k : ℕ) :
    cnt s (List.replicate k (none : Cell)) = 0 := by
  induction k with
  | zero => rfl
  | succ k ih => simp [List.replicate, cnt, ih]

theorem cnt_set {b : List Cell} {n : ℕ} (h : b.get? n = some none)
    (s t : Sym) :
    cnt t (b.set n (some s)) = cnt t b + (if s = t then 1 else 0) := by
  induction b generalizing n with
  | nil => simp at h
  | cons c rest ih =>
    cases n with
    | zero =>
      simp only [List.get?, Option.some.injEq] at h
      rw [h]
      by_cases hst : s = t
      · simp [List.set, cnt, hst]
        omega
      · simp [List.set, cnt, hst]
    | succ n =>
      simp only [List.get?] at h
      simp only [List.set, cnt, ih h]
      omega

theorem inv9_mkRoom (ws : ℕ) : Inv9 (mkRoom ws) := by
  refine ⟨Or.inl rfl, fun _ => ⟨fun _ => rfl, fun hq => ?_⟩⟩
  exact absurd hq (by simp [mkRoom])

theorem inv9_join (room : Room) (ws : ℕ) (idx : Fin 2) (h : Inv9 room) :
    Inv9 (joinAssign room ws idx) := h

theorem inv9_restart (room : Room) : Inv9 (restartUpdate room) := by
  refine ⟨Or.inl rfl, fun _ => ⟨fun _ => rfl, fun hq => ?_⟩⟩
  exact absurd hq (by simp [restartUpdate])

theorem inv9_clean (room : Room) (ws : ℕ) (idx : Fin 2) (h : Inv9 room) :
    Inv9 (cleanupRoom room ws idx) := h

theorem inv9_move {room : Room} {i : JIdx} {you : Sym} (h9 : Inv9 room)
    (hgo : room.gameOver = false) (hturn : room.turn = you)
    (hcell : boardAt room.board i = some none) :
    Inv9 (moveUpdate room i you) := by
  obtain ⟨n, rfl, hget⟩ := boardAt_eq_some hcell
  obtain ⟨hdiff, himp⟩ := h9
  have hXO := himp hgo
  rw [moveUpdate, boardSet_natCast]
  cases you with
  | X =>
    have hc := hXO.1 hturn
    have hbX : cnt Sym.X (room.board.set n (some Sym.X)) =
        cnt Sym.X room.board + 1 := by
      rw [cnt_set hget]
      simp
    have hbO : cnt Sym.O (room.board.set n (some Sym.X)) =
        cnt Sym.O room.board := by
      rw [cnt_set hget]
      simp
    split
    case isTrue hcond =>
      exact ⟨Or.inr (by dsimp only; omega), fun hfalse => by simp at hfalse⟩
    case isFalse hcond =>
      refine ⟨Or.inr (by dsimp only; omega),
        fun _ => ⟨fun hq => ?_, fun _ => by dsimp only; omega⟩⟩
      dsimp only at hq
      rw [hturn] at hq
      exact absurd hq (by simp [Sym.other])
  | O =>
    have hc := hXO.2 hturn
    have hbX : cnt Sym.X (room.board.set n (some Sym.O)) =
        cnt Sym.X room.board := by
      rw [cnt_set hget]
      simp
    have hbO : cnt Sym.O (room.board.set n (some Sym.O)) =
        cnt Sym.O room.board + 1 := by
      rw [cnt_set hget]
      simp
    split
    case isTrue hcond =>
      exact ⟨Or.inl (by dsimp only; omega), fun hfalse => by simp at hfalse⟩
    case isFalse hcond =>
      refine ⟨Or.inl (by dsimp only; omega),
        fun _ => ⟨fun _ => by dsimp only; omega, fun hq => ?_⟩⟩
      dsimp only at hq
      rw [hturn] at hq
      exact absurd hq (by simp [Sym.other])

theorem get?_set_self {l : List Cell} {n : ℕ} (a : Cell)
    (h : n < l.length) : (l.set n a).get? n = some a := by
  induction l generalizing n with
  | nil => simp at h
  | cons c rest ih =>
    cases n with
    | zero => rfl
    | succ n =>
      simp only [List.length_cons, Nat.succ_lt_succ_iff] at h
      simp only [List.set, List.get?]
      exact ih h

theorem lt_length_of_get? {l : List Cell} {n : ℕ} {c : Cell}
    (h : l.get? n = some c) : n < l.length := by
  induction l generalizing n with
  | nil => simp at h
  | cons d rest ih =>
    cases n with
    | zero => simp
    | succ n =>
      simp only [List.get?] at h
      simp only [List.length_cons, Nat.succ_lt_succ_iff]
      exact ih h

theorem playersCount_ge2 {room : Room} (h : ¬room.playersCount < 2) :
    room.p0.isSome = true ∧ room.p1.isSome = true := by
  rw [Room.playersCount] at h
  by_cases h0 : room.p0.isSome = true <;> by_cases h1 : room.p1.isSome = true
  · exact ⟨h0, h1⟩
  · simp [h0, h1] at h
  · simp [h0, h1] at h
  · simp [h0, h1] at h

theorem playersCount_lt2 {room : Room} (h0 : room.p0.isSome = true)
    (h1 : room.p1.isSome = true) : ¬room.playersCount < 2 := by
  simp [Room.playersCount, h0, h1]

theorem numGuard_false_of_int {i : JIdx} (h : isIntIdx i = true) :
    (!i.isNumber || i.ltZero || i.gtEight) = false := by
  obtain ⟨n, hn, rfl⟩ := isIntIdx_iff.mp h
  simp only [JIdx.isNumber, JIdx.ltZero, JIdx.gtEight, Bool.not_true,
    Bool.false_or, Bool.or_eq_false_iff, decide_eq_false_iff_not, not_lt]
  constructor
  · positivity
  · exact_mod_cast hn

theorem boardAt_nonint {b : List Cell} {i : JIdx} (hnumb : i.isNumber = true)
    (hgt : i.gtEight = false) (hint : isIntIdx i = false) :
    boardAt b i = none := by
  cases i with
  | notNum => simp [JIdx.isNumber] at hnumb
  | nan => rfl
  | num q =>
    rw [boardAt, if_neg]
    rintro ⟨hden, hpos⟩
    have hq8 : q ≤ 8 := by
      simpa [JIdx.gtEight] using hgt
    have hn8 : q.num ≤ 8 := by
      have : ((q.num : ℤ) : ℚ) ≤ ((8 : ℤ) : ℚ) := by
        rw [show ((q.num : ℤ) : ℚ) = q from by
          conv_rhs => rw [← Rat.num_div_den q]
          rw [hden]
          simp]
        exact_mod_cast hq8
      exact_mod_cast this
    rw [isIntIdx] at hint
    simp [hden, hpos, hn8] at hint

theorem moveH_no_room {R : Registry} {ws : ℕ} {raw : String} {i : JIdx}
    (h : lookupRoom R (normCode raw) = none) : moveH R ws raw i = (R, []) := by
  simp [moveH, h]

theorem moveH_not_member {R : Registry} {ws : ℕ} {raw : String} {i : JIdx}
    {room : Room} (hlk : lookupRoom R (normCode raw) = some room)
    (hsym : symGet room.symbols ws = none) :
    moveH R ws raw i = (R, [(ws, OutMsg.err "Ты не в комнате.")]) := by
  simp [moveH, hlk, hsym]

theorem moveH_game_over {R : Registry} {ws : ℕ} {raw : String} {i : JIdx}
    {room : Room} {you : Sym} (hlk : lookupRoom R (normCode raw) = some room)
    (hsym : symGet room.symbols ws = some you) (hgo : room.gameOver = true) :
    moveH R ws raw i = (R, []) := by
  simp only [moveH, hlk, hsym]
  rw [if_pos hgo]

theorem moveH_bad_num {R : Registry} {ws : ℕ} {raw : String} {i : JIdx}
    {room : Room} {you : Sym} (hlk : lookupRoom R (normCode raw) = some room)
    (hsym : symGet room.symbols ws = some you) (hgo : room.gameOver = false)
    (hnum : (!i.isNumber || i.ltZero || i.gtEight) = true) :
    moveH R ws raw i = (R, []) := by
  simp only [moveH, hlk, hsym]
  rw [if_neg (by simp [hgo]), if_pos hnum]

theorem moveH_waiting {R : Registry} {ws : ℕ} {raw : String} {i : JIdx}
    {room : Room} {you : Sym} (hlk : lookupRoom R (normCode raw) = some room)
    (hsym : symGet room.symbols ws = some you) (hgo : room.gameOver = false)
    (hnum : (!i.isNumber || i.ltZero || i.gtEight) = false)
    (hcnt : room.playersCount < 2) :
    moveH R ws raw i = (R, [(ws, OutMsg.err "Ждём второго игрока...")]) := by
  simp only [moveH, hlk, hsym]
  rw [if_neg (by simp [hgo]), if_neg (by simp [hnum]), if_pos hcnt]

theorem moveH_not_turn {R : Registry} {ws : ℕ} {raw : String} {i : JIdx}
    {room : Room} {you : Sym} (hlk : lookupRoom R (normCode raw) = some room)
    (hsym : symGet room.symbols ws = some you) (hgo : room.gameOver = false)
    (hnum : (!i.isNumber || i.ltZero || i.gtEight) = false)
    (hcnt : ¬room.playersCount < 2) (htn : room.turn ≠ you) :
    moveH R ws raw i = (R, [(ws, OutMsg.err "Сейчас не твой ход.")]) := by
  simp only [moveH, hlk, hsym]
  rw [if_neg (by simp [hgo]), if_neg (by simp [hnum]), if_neg hcnt,
    if_pos htn]

theorem moveH_cell_taken {R : Registry} {ws : ℕ} {raw : String} {i : JIdx}
    {room : Room} {you : Sym} (hlk : lookupRoom R (normCode raw) = some room)
    (hsym : symGet room.symbols ws = some you) (hgo : room.gameOver = false)
    (hnum : (!i.isNumber || i.ltZero || i.gtEight) = false)
    (hcnt : ¬room.playersCount < 2) (htn : room.turn = you)
    (hcell : boardAt room.board i ≠ some none) :
    moveH R ws raw i = (R, []) := by
  simp only [moveH, hlk, hsym]
  rw [if_neg (by simp [hgo]), if_neg (by simp [hnum]), if_neg hcnt,
    if_neg (by rw [not_not]; exact htn), if_pos hcell]

theorem moveH_accept {R : Registry} {ws : ℕ} {raw : String} {i : JIdx}
    {room : Room} {you : Sym} (hlk : lookupRoom R (normCode raw) = some room)
    (hsym : symGet room.symbols ws = some you) (hgo : room.gameOver = false)
    (hnum : (!i.isNumber || i.ltZero || i.gtEight) = false)
    (hcnt : ¬room.playersCount < 2) (htn : room.turn = you)
    (hcell : boardAt room.board i = some none) :
    moveH R ws raw i =
      (setRoom R (normCode raw) (moveUpdate room i you),
       moveMsgs (moveUpdate room i you)
         (findWinner (moveUpdate room i you).board)) := by
  simp only [moveH, hlk, hsym]
  rw [if_neg (by simp [hgo]), if_neg (by simp [hnum]), if_neg hcnt,
    if_neg (by rw [not_not]; exact htn), if_neg (by rw [not_not]; exact hcell)]

theorem joinH_no_room {R : Registry} {ws : ℕ} {raw : String}
    (h : lookupRoom R (normCode raw) = none) :
    joinH R ws raw = (R, [(ws, OutMsg.err "Комната не найдена.")]) := by
  simp [joinH, h]

theorem joinH_rejoin {R : Registry} {ws : ℕ} {raw : String} {room : Room}
    (hlk : lookupRoom R (normCode raw) = some room)
    (hin : room.includesWs ws = true) :
    joinH R ws raw = (R, [(ws, OutMsg.joined (normCode raw)
      (symGet room.symbols ws)), (ws, stateMsg room)]) := by
  simp [joinH, hlk, hin]

theorem joinH_full {R : Registry} {ws : ℕ} {raw : String} {room : Room}
    (hlk : lookupRoom R (normCode raw) = some room)
    (hin : room.includesWs ws = false) (hfr : room.freeIndex = none) :
    joinH R ws raw =
      (R, [(ws, OutMsg.err "Комната уже заполнена (2 игрока).")]) := by
  simp [joinH, hlk, hin, hfr]

theorem restartH_no_room {R : Registry} {ws : ℕ} {raw : String}
    (h : lookupRoom R (normCode raw) = none) : restartH R ws raw = (R, []) := by
  simp [restartH, h]

theorem restartH_not_member {R : Registry} {ws : ℕ} {raw : String}
    {room : Room} (hlk : lookupRoom R (normCode raw) = some room)
    (hsym : symGet room.symbols ws = none) : restartH R ws raw = (R, []) := by
  simp [restartH, hlk, hsym]

theorem restartH_go {R : Registry} {ws : ℕ} {raw : String} {room : Room}
    {s : Sym} (hlk : lookupRoom R (normCode raw) = some room)
    (hsym : symGet room.symbols ws = some s) :
    restartH R ws raw =
      (setRoom R (normCode raw) (restartUpdate room),
       sends (restartUpdate room) (.info "Игра перезапущена.") ++
       sends (restartUpdate room) (stateMsg (restartUpdate room))) := by
  simp [restartH, hlk, hsym]

theorem moveUpdate_board (room : Room) (i : JIdx) (you : Sym) :
    (moveUpdate room i you).board = boardSet room.board i you := by
  rw [moveUpdate]
  split <;> rfl

theorem moveUpdate_p0 (room : Room) (i : JIdx) (you : Sym) :
    (moveUpdate room i you).p0 = room.p0 := by
  rw [moveUpdate]
  split <;> rfl

theorem moveUpdate_p1 (room : Room) (i : JIdx) (you : Sym) :
    (moveUpdate room i you).p1 = room.p1 := by
  rw [moveUpdate]
  split <;> rfl

theorem moveUpdate_symbols (room : Room) (i : JIdx) (you : Sym) :
    (moveUpdate room i you).symbols = room.symbols := by
  rw [moveUpdate]
  split <;> rfl

theorem moveUpdate_turn_or_over (room : Room) (i : JIdx) (you : Sym) :
    ((moveUpdate room i you).turn = room.turn.other ∧
     (moveUpdate room i you).gameOver = room.gameOver) ∨
    ((moveUpdate room i you).turn = room.turn ∧
     (moveUpdate room i you).gameOver = true) := by
  rw [moveUpdate]
  split
  · exact Or.inr ⟨rfl, rfl⟩
  · exact Or.inl ⟨rfl, rfl⟩

theorem symGet_symDel (m : SymMap) (ws : ℕ) :
    symGet (symDel m ws) ws = none := by
  rw [symGet, symDel, Option.map_eq_none']
  rw [List.find?_eq_none]
  intro x hx
  rw [List.mem_filter] at hx
  simpa using hx.2

theorem moveUpdate_gameOver_win {room : Room} {i : JIdx} {you s : Sym}
    (hw : findWinner (boardSet room.board i you) = some s) :
    (moveUpdate room i you).gameOver = true := by
  rw [moveUpdate]
  split
  · rfl
  case isFalse h =>
    rw [hw] at h
    simp at h

theorem moveUpdate_gameOver_draw {room : Room} {i : JIdx} {you : Sym}
    (hw : findWinner (boardSet room.board i you) = none)
    (hall : (boardSet room.board i you).all (fun v => v.isSome) = true) :
    (moveUpdate room i you).gameOver = true := by
  rw [moveUpdate]
  split
  · rfl
  case isFalse h =>
    rw [hw] at h
    simp [hall] at h

theorem moveUpdate_flip {room : Room} {i : JIdx} {you : Sym}
    (hw : findWinner (boardSet room.board i you) = none)
    (hall : (boardSet room.board i you).all (fun v => v.isSome) = false) :
    (moveUpdate room i you).gameOver = room.gameOver ∧
    (moveUpdate room i you).turn = room.turn.other := by
  rw [moveUpdate]
  split
  case isTrue h =>
    rw [hw] at h
    simp [hall] at h
  · exact ⟨rfl, rfl⟩

theorem lineWinner_eq_some {b : List Cell} {a x y : ℕ} {s : Sym} :
    lineWinner b (a, x, y) = some s ↔
      (b.getD a none = some s ∧ b.getD x none = some s ∧
       b.getD y none = some s) := by
  cases h : b.getD a none with
  | none =>
    constructor
    · intro h0
      rw [lineWinner] at h0
      dsimp only at h0
      rw [h] at h0
      simp at h0
    · rintro ⟨h1, _, _⟩
      exact Option.noConfusion h1
  | some t =>
    simp only [lineWinner, h]
    by_cases hc : b.getD x none = some t ∧ b.getD y none = some t
    · rw [if_pos hc]
      constructor
      · intro hts
        rw [Option.some.injEq] at hts
        subst hts
        exact ⟨rfl, hc.1, hc.2⟩
      · rintro ⟨h1, _, _⟩
        exact h1
    · rw [if_neg hc]
      constructor
      · intro h0
        exact absurd h0 (by simp)
      · rintro ⟨h1, h2, h3⟩
        rw [Option.some.injEq] at h1
        subst h1
        exact absurd ⟨h2, h3⟩ hc

theorem scanWins_eq_some {b : List Cell} {s : Sym} (L : List (ℕ × ℕ × ℕ)) :
    scanWins b L = some s ↔
      ∃ k, ∃ hk : k < L.length, lineWinner b (L.get ⟨k, hk⟩) = some s ∧
        ∀ l ∈ L.take k, lineWinner b l = none := by
  induction L with
  | nil =>
    simp [scanWins]
  | cons l rest ih =>
    cases hl : lineWinner b l with
    | some t =>
      simp only [scanWins, hl]
      constructor
      · intro h
        exact ⟨0, by simp, by simpa using hl.trans h, by simp⟩
      · rintro ⟨k, hk, hline, hbefore⟩
        cases k with
        | zero =>
          simp only [List.get] at hline
          rw [hl] at hline
          exact hline
        | succ k =>
          have h0 := hbefore l (by simp [List.take])
          rw [hl] at h0
          exact absurd h0 (by simp)
    | none =>
      simp only [scanWins, hl]
      rw [ih]
      constructor
      · rintro ⟨k, hk, hline, hbefore⟩
        refine ⟨k + 1, by simpa using hk, by simpa using hline, ?_⟩
        intro m hm
        rw [List.take_succ_cons, List.mem_cons] at hm
        rcases hm with rfl | hm
        · exact hl
        · exact hbefore m hm
      · rintro ⟨k, hk, hline, hbefore⟩
        cases k with
        | zero =>
          simp only [List.get] at hline
          rw [hl] at hline
          exact absurd hline (by simp)
        | succ k =>
          refine ⟨k, by simpa using hk, by simpa using hline, ?_⟩
          intro m hm
          exact hbefore m (by simp [List.take_succ_cons, hm])

/-- C1 (amended): a move is accepted — the requester's symbol is written
into the addressed cell — iff the room exists, the requester has a symbol
in it, the game is not over, the index is an integer in [0, 8], both slots
are occupied, it is the requester's turn, and the target cell is empty;
violating any single condition alone causes rejection.  The checks run in
the listed order and short-circuit on the first failure, except that
integer-ness of the index is enforced only by the final empty-cell check
(the in-order index check rejects non-numbers and numbers outside [0, 8]
only), so a non-integer in-range index can still trigger the later
waiting-for-second-player or not-your-turn errors. -/
theorem C1_move_acceptance (R : Registry) (ws : ℕ) (raw : String) (i : JIdx) :
    (MoveWrites R ws raw i ↔ MoveOk R ws raw i) ∧
    (lookupRoom R (normCode raw) = none → moveH R ws raw i = (R, [])) ∧
    (∀ room, lookupRoom R (normCode raw) = some room →
      symGet room.symbols ws = none →
      moveH R ws raw i = (R, [(ws, OutMsg.err "Ты не в комнате.")])) ∧
    (∀ room you, lookupRoom R (normCode raw) = some room →
      symGet room.symbols ws = some you → room.gameOver = true →
      moveH R ws raw i = (R, [])) ∧
    (∀ room you, lookupRoom R (normCode raw) = some room →
      symGet room.symbols ws = some you → room.gameOver = false →
      (!i.isNumber || i.ltZero || i.gtEight) = true →
      moveH R ws raw i = (R, [])) ∧
    (∀ room you, lookupRoom R (normCode raw) = some room →
      symGet room.symbols ws = some you → room.gameOver = false →
      (!i.isNumber || i.ltZero || i.gtEight) = false →
      room.playersCount < 2 →
      moveH R ws raw i = (R, [(ws, OutMsg.err "Ждём второго игрока...")])) ∧
    (∀ room you, lookupRoom R (normCode raw) = some room →
      symGet room.symbols ws = some you → room.gameOver = false →
      (!i.isNumber || i.ltZero || i.gtEight) = false →
      ¬room.playersCount < 2 → room.turn ≠ you →
      moveH R ws raw i = (R, [(ws, OutMsg.err "Сейчас не твой ход.")])) ∧
    (∀ room you, lookupRoom R (normCode raw) = some room →
      symGet room.symbols ws = some you → room.gameOver = false →
      (!i.isNumber || i.ltZero || i.gtEight) = false →
      ¬room.playersCount < 2 → room.turn = you →
      boardAt room.board i ≠ some none → moveH R ws raw i = (R, [])) := by
  refine ⟨⟨?_, ?_⟩, fun h => moveH_no_room h,
    fun room hlk hsym => moveH_not_member hlk hsym,
    fun room you hlk hsym hgo => moveH_game_over hlk hsym hgo,
    fun room you hlk hsym hgo hnum => moveH_bad_num hlk hsym hgo hnum,
    fun room you hlk hsym hgo hnum hcnt =>
      moveH_waiting hlk hsym hgo hnum hcnt,
    fun room you hlk hsym hgo hnum hcnt htn =>
      moveH_not_turn hlk hsym hgo hnum hcnt htn,
    fun room you hlk hsym hgo hnum hcnt htn hcell =>
      moveH_cell_taken hlk hsym hgo hnum hcnt htn hcell⟩
  · rintro ⟨room, you, room', hlk, hsym, hlk2, hcell, hcell2⟩
    have contra : ∀ ms : List (ℕ × OutMsg),
        moveH R ws raw i = (R, ms) → False := by
      intro ms hEq
      rw [hEq] at hlk2
      dsimp only at hlk2
      have hrr := hlk.symm.trans hlk2
      rw [Option.some.injEq] at hrr
      subst hrr
      have hco := hcell.symm.trans hcell2
      simp at hco
    by_cases hgo : room.gameOver = true
    · exact (contra _ (moveH_game_over hlk hsym hgo)).elim
    rw [Bool.not_eq_true] at hgo
    by_cases hnum : (!i.isNumber || i.ltZero || i.gtEight) = true
    · exact (contra _ (moveH_bad_num hlk hsym hgo hnum)).elim
    rw [Bool.not_eq_true] at hnum
    by_cases hcnt : room.playersCount < 2
    · exact (contra _ (moveH_waiting hlk hsym hgo hnum hcnt)).elim
    by_cases htn : room.turn ≠ you
    · exact (contra _ (moveH_not_turn hlk hsym hgo hnum hcnt htn)).elim
    rw [not_not] at htn
    obtain ⟨n, hn, hget⟩ := boardAt_eq_some hcell
    subst hn
    have hn8 : n ≤ 8 := by
      rw [Bool.or_eq_false_iff, Bool.or_eq_false_iff] at hnum
      have hgt := hnum.2
      rw [JIdx.gtEight, decide_eq_false_iff_not, not_lt] at hgt
      exact_mod_cast hgt
    have hint : isIntIdx (.num ((n : ℕ) : ℚ)) = true :=
      isIntIdx_iff.mpr ⟨n, hn8, rfl⟩
    obtain ⟨hp0, hp1⟩ := playersCount_ge2 hcnt
    exact ⟨room, you, hlk, hsym, hgo, hint, hp0, hp1, htn, hcell⟩
  · rintro ⟨room, you, hlk, hsym, hgo, hint, hp0, hp1, hturn, hcell⟩
    have hacc := moveH_accept hlk hsym hgo (numGuard_false_of_int hint)
      (playersCount_lt2 hp0 hp1) hturn hcell
    refine ⟨room, you, moveUpdate room i you, hlk, hsym, ?_, hcell, ?_⟩
    · rw [hacc]
      exact lookup_setRoom_self _ hlk
    · rw [moveUpdate_board]
      obtain ⟨n, hn, hget⟩ := boardAt_eq_some hcell
      subst hn
      rw [boardSet_natCast, boardAt_natCast]
      exact get?_set_self _ (lt_length_of_get? hget)

/-- C1 counterexample: with only one player in the room and the in-range
non-integer index 5/2, the first failing condition of the claim's ordered
list is the integer-index one, whose failure the claimed short-circuit
makes a silent ignore — but the server still reaches the both-slots check
and sends the "waiting for second player" error. -/
theorem C1_counterexample :
    isIntIdx (.num qHalf) = false ∧
    specMoveVerdict regHalf 1 "AB2CD" (.num qHalf) = MoveVerdict.ignored ∧
    (moveH regHalf 1 "AB2CD" (.num qHalf)).2 =
      [(1, OutMsg.err "Ждём второго игрока...")] :=
  ⟨rfl, rfl, rfl⟩

/-- C1 witness: a fully valid move by X in a full room is accepted (also
through a lower-case room code), and a connection without a slot gets the
not-in-room error. -/
theorem C1_move_acceptance_witness :
    MoveWrites regA 1 "ab2cd" (.num ((4 : ℕ) : ℚ)) ∧
    moveH regHalf 2 "AB2CD" (.num ((0 : ℕ) : ℚ)) =
      (regHalf, [(2, OutMsg.err "Ты не в комнате.")]) :=
  ⟨(C1_move_acceptance regA 1 "ab2cd" (.num ((4 : ℕ) : ℚ))).1.mpr
      ⟨roomA, Sym.X, rfl, rfl, rfl, rfl, rfl, rfl, rfl, rfl⟩,
   (C1_move_acceptance regHalf 2 "AB2CD" (.num ((0 : ℕ) : ℚ))).2.2.1
      roomHalf rfl rfl⟩

/-- C3: after any accepted move exactly one of the two effects happens —
either the turn flips to the other symbol and the game is not over, or the
turn is unchanged and gameOver has become true. -/
theorem C3_turn_xor_gameover (R : Registry) (ws : ℕ) (raw : String)
    (i : JIdx) (room : Room) (you : Sym)
    (hlk : lookupRoom R (normCode raw) = some room)
    (hsym : symGet room.symbols ws = some you)
    (hgo : room.gameOver = false)
    (hint : isIntIdx i = true)
    (hp0 : room.p0.isSome = true) (hp1 : room.p1.isSome = true)
    (hturn : room.turn = you)
    (hcell : boardAt room.board i = some none) :
    ∃ room', lookupRoom (moveH R ws raw i).1 (normCode raw) = some room' ∧
      ((room'.turn ≠ room.turn ∧ room'.gameOver = false) ∨
       (room'.turn = room.turn ∧ room'.gameOver = true)) := by
  have hacc := moveH_accept hlk hsym hgo (numGuard_false_of_int hint)
    (playersCount_lt2 hp0 hp1) hturn hcell
  refine ⟨moveUpdate room i you, ?_, ?_⟩
  · rw [hacc]
    exact lookup_setRoom_self _ hlk
  rcases moveUpdate_turn_or_over room i you with ⟨ht, hov⟩ | ⟨ht, hov⟩
  · left
    refine ⟨?_, by rw [hov, hgo]⟩
    rw [ht]
    cases room.turn <;> simp [Sym.other]
  · right
    exact ⟨ht, hov⟩

/-- C3 witness: X takes cell 0 of the empty full room; the turn flips and
the game is not over. -/
theorem C3_turn_xor_gameover_witness :
    ∃ room', lookupRoom (moveH regA 1 "AB2CD" (.num ((0 : ℕ) : ℚ))).1
        (normCode "AB2CD") = some room' ∧
      ((room'.turn ≠ roomA.turn ∧ room'.gameOver = false) ∨
       (room'.turn = roomA.turn ∧ room'.gameOver = true)) :=
  C3_turn_xor_gameover regA 1 "AB2CD" (.num ((0 : ℕ) : ℚ)) roomA Sym.X
    rfl rfl rfl rfl rfl rfl rfl rfl

/-- C2: after an accepted move the board is scanned over exactly the 8
lines of WINS in their fixed order; a line wins iff its three cells are
equal and non-empty; the first matching line determines the winner; with
no winner and a full board the outcome is a draw; on win or draw gameOver
becomes true and a gameover message with the winner symbol (or the draw
marker, distinct from both symbols) is broadcast, else the game goes on
with gameOver still false and no gameover message. -/
theorem C2_win_draw_detection :
    WINS.length = 8 ∧
    (∀ (b : List Cell) (a x y : ℕ) (s : Sym),
      lineWinner b (a, x, y) = some s ↔
        (b.getD a none = some s ∧ b.getD x none = some s ∧
         b.getD y none = some s)) ∧
    (∀ (b : List Cell) (s : Sym), findWinner b = some s ↔
      ∃ k, ∃ hk : k < WINS.length, lineWinner b (WINS.get ⟨k, hk⟩) = some s ∧
        ∀ l ∈ WINS.take k, lineWinner b l = none) ∧
    (∀ s : Sym, OutMsg.gameover none ≠ OutMsg.gameover (some s)) ∧
    (∀ (R : Registry) (ws : ℕ) (raw : String) (i : JIdx) room (you : Sym),
      lookupRoom R (normCode raw) = some room →
      symGet room.symbols ws = some you →
      room.gameOver = false →
      isIntIdx i = true →
      room.p0.isSome = true → room.p1.isSome = true →
      room.turn = you →
      boardAt room.board i = some none →
      ∃ room', lookupRoom (moveH R ws raw i).1 (normCode raw) = some room' ∧
        room'.board = boardSet room.board i you ∧
        (∀ s, findWinner room'.board = some s →
          room'.gameOver = true ∧
          (moveH R ws raw i).2 =
            sends room' (OutMsg.gameover (some s)) ++
            sends room' (stateMsg room')) ∧
        (findWinner room'.board = none →
          room'.board.all (fun v => v.isSome) = true →
          room'.gameOver = true ∧
          (moveH R ws raw i).2 =
            sends room' (OutMsg.gameover none) ++
            sends room' (stateMsg room')) ∧
        (findWinner room'.board = none →
          room'.board.all (fun v => v.isSome) = false →
          room'.gameOver = false ∧
          (moveH R ws raw i).2 = sends room' (stateMsg room'))) := by
  refine ⟨rfl, fun b a x y s => lineWinner_eq_some,
    fun b s => scanWins_eq_some WINS, fun s => by simp, ?_⟩
  intro R ws raw i room you hlk hsym hgo hint hp0 hp1 hturn hcell
  have hacc := moveH_accept hlk hsym hgo (numGuard_false_of_int hint)
    (playersCount_lt2 hp0 hp1) hturn hcell
  refine ⟨moveUpdate room i you, ?_, moveUpdate_board room i you, ?_, ?_, ?_⟩
  · rw [hacc]
    exact lookup_setRoom_self _ hlk
  · intro s hw
    rw [moveUpdate_board] at hw
    have hov := moveUpdate_gameOver_win hw
    refine ⟨hov, ?_⟩
    rw [hacc]
    dsimp only
    rw [moveMsgs, if_pos hov, moveUpdate_board, hw]
  · intro hw hall
    rw [moveUpdate_board] at hw hall
    have hov := moveUpdate_gameOver_draw hw hall
    refine ⟨hov, ?_⟩
    rw [hacc]
    dsimp only
    rw [moveMsgs, if_pos hov, moveUpdate_board, hw]
  · intro hw hall
    rw [moveUpdate_board] at hw hall
    have hov := (moveUpdate_flip hw hall).1.trans hgo
    refine ⟨hov, ?_⟩
    rw [hacc]
    dsimp only
    rw [moveMsgs, if_neg (by simp [hov])]
    exact List.nil_append _

/-- C2 witness: X completes the top row in `roomWin` by taking cell 2. -/
theorem C2_win_draw_detection_witness :
    ∃ room', lookupRoom (moveH regWin 1 "AB2CD"
        (.num ((2 : ℕ) : ℚ))).1 (normCode "AB2CD") = some room' ∧
      room'.board = boardSet roomWin.board (.num ((2 : ℕ) : ℚ)) Sym.X ∧
      (∀ s, findWinner room'.board = some s →
        room'.gameOver = true ∧
        (moveH regWin 1 "AB2CD" (.num ((2 : ℕ) : ℚ))).2 =
          sends room' (OutMsg.gameover (some s)) ++
          sends room' (stateMsg room')) ∧
      (findWinner room'.board = none →
        room'.board.all (fun v => v.isSome) = true →
        room'.gameOver = true ∧
        (moveH regWin 1 "AB2CD" (.num ((2 : ℕ) : ℚ))).2 =
          sends room' (OutMsg.gameover none) ++
          sends room' (stateMsg room')) ∧
      (findWinner room'.board = none →
        room'.board.all (fun v => v.isSome) = false →
        room'.gameOver = false ∧
        (moveH regWin 1 "AB2CD" (.num ((2 : ℕ) : ℚ))).2 =
          sends room' (stateMsg room')) :=
  C2_win_draw_detection.2.2.2.2 regWin 1 "AB2CD" (.num ((2 : ℕ) : ℚ))
    roomWin Sym.X rfl rfl rfl rfl rfl rfl rfl rfl

/-- C4 (amended): every code produced by create is 5 characters drawn from
the fixed 32-character alphabet (which has no 0, O, 1 or I and is already
uppercase) and is collision-free against every live room code, generation
retrying until no collision. -/
theorem C4_room_code (R : Registry) (g : ℕ → Fin 5 → Fin roomChars.length)
    (h : ∃ n, hasCode R (makeRoomCode (g n)) = false) :
    (createCode R g h).length = 5 ∧
    (∀ ch ∈ (createCode R g h).data, ch ∈ roomChars) ∧
    roomChars.length = 32 ∧
    ('0' ∉ roomChars ∧ 'O' ∉ roomChars ∧ '1' ∉ roomChars ∧
     'I' ∉ roomChars) ∧
    (∀ ch ∈ roomChars, ch.toUpper = ch) ∧
    hasCode R (createCode R g h) = false := by
  refine ⟨?_, ?_, rfl, by decide, by decide, Nat.find_spec h⟩
  · simp [createCode, makeRoomCode, String.length]
  · intro ch hch
    simp only [createCode, makeRoomCode, List.mem_map] at hch
    obtain ⟨j, _, rfl⟩ := hch
    exact List.get_mem _ _ _

/-- C4 counterexample: the alphabet `makeRoomCode` draws from has 32
characters, not 33. -/
theorem C4_counterexample :
    roomChars.length = 32 ∧ ¬roomChars.length = 33 :=
  ⟨rfl, by decide⟩

/-- C4 witness: with a constant pick stream over the registry holding one
room, the first generated code is fresh and well-formed. -/
theorem C4_room_code_witness :
    (createCode regA gA ⟨0, rfl⟩).length = 5 ∧
    (∀ ch ∈ (createCode regA gA ⟨0, rfl⟩).data, ch ∈ roomChars) ∧
    roomChars.length = 32 ∧
    ('0' ∉ roomChars ∧ 'O' ∉ roomChars ∧ '1' ∉ roomChars ∧
     'I' ∉ roomChars) ∧
    (∀ ch ∈ roomChars, ch.toUpper = ch) ∧
    hasCode regA (createCode regA gA ⟨0, rfl⟩) = false :=
  C4_room_code regA gA ⟨0, rfl⟩

/-- C5: restart in an existing room by an occupant resets the board, turn
and gameOver while preserving both slots, the symbol map and every other
room; a restart for a missing room or by a non-occupant changes nothing
and sends nothing (in particular no error). -/
theorem C5_restart (R : Registry) (ws : ℕ) (raw : String) :
    (∀ room s, lookupRoom R (normCode raw) = some room →
      symGet room.symbols ws = some s →
      (restartH R ws raw).1 = setRoom R (normCode raw) (restartUpdate room) ∧
      lookupRoom (restartH R ws raw).1 (normCode raw) =
        some (restartUpdate room) ∧
      (restartUpdate room).board = List.replicate 9 none ∧
      (restartUpdate room).turn = Sym.X ∧
      (restartUpdate room).gameOver = false ∧
      (restartUpdate room).p0 = room.p0 ∧
      (restartUpdate room).p1 = room.p1 ∧
      (restartUpdate room).symbols = room.symbols ∧
      (∀ c₂, (c₂ == normCode raw) = false →
        lookupRoom (restartH R ws raw).1 c₂ = lookupRoom R c₂)) ∧
    (lookupRoom R (normCode raw) = none → restartH R ws raw = (R, [])) ∧
    (∀ room, lookupRoom R (normCode raw) = some room →
      symGet room.symbols ws = none → restartH R ws raw = (R, [])) := by
  refine ⟨?_, fun h => restartH_no_room h,
    fun room hlk hsym => restartH_not_member hlk hsym⟩
  intro room s hlk hsym
  have hgo := restartH_go hlk hsym
  refine ⟨by rw [hgo], ?_, rfl, rfl, rfl, rfl, rfl, rfl, ?_⟩
  · rw [hgo]
    exact lookup_setRoom_self _ hlk
  · intro c₂ hne
    rw [hgo]
    exact lookup_setRoom_ne _ hne

/-- C5 witness: restarting `roomWin` through its occupant 1 resets it, and
restarting a code that names no room is a silent no-op. -/
theorem C5_restart_witness :
    ((restartH regWin 1 "AB2CD").1 =
        setRoom regWin (normCode "AB2CD") (restartUpdate roomWin) ∧
      lookupRoom (restartH regWin 1 "AB2CD").1 (normCode "AB2CD") =
        some (restartUpdate roomWin) ∧
      (restartUpdate roomWin).board = List.replicate 9 none ∧
      (restartUpdate roomWin).turn = Sym.X ∧
      (restartUpdate roomWin).gameOver = false ∧
      (restartUpdate roomWin).p0 = roomWin.p0 ∧
      (restartUpdate roomWin).p1 = roomWin.p1 ∧
      (restartUpdate roomWin).symbols = roomWin.symbols ∧
      (∀ c₂, (c₂ == normCode "AB2CD") = false →
        lookupRoom (restartH regWin 1 "AB2CD").1 c₂ =
          lookupRoom regWin c₂)) ∧
    restartH regWin 1 "ZZZZZ" = (regWin, []) :=
  ⟨(C5_restart regWin 1 "AB2CD").1 roomWin Sym.X rfl rfl,
   (C5_restart regWin 1 "ZZZZZ").2.1 rfl⟩

/-- C7: join is idempotent for a current occupant — the registry is
returned unchanged (no slot assignment, no symbol change) and the requester
alone receives the join confirmation carrying the stored symbol plus the
current state. -/
theorem C7_join_idempotent (R : Registry) (ws : ℕ) (raw : String)
    (room : Room) (hlk : lookupRoom R (normCode raw) = some room)
    (hin : room.includesWs ws = true) :
    joinH R ws raw = (R, [(ws, OutMsg.joined (normCode raw)
        (symGet room.symbols ws)), (ws, stateMsg room)]) ∧
    (∀ s, symGet room.symbols ws = some s →
      (ws, OutMsg.joined (normCode raw) (some s)) ∈ (joinH R ws raw).2) := by
  have hj := joinH_rejoin hlk hin
  refine ⟨hj, ?_⟩
  intro s hs
  rw [hj]
  dsimp only
  rw [← hs]
  exact List.mem_cons_self _ _

/-- C7 witness: occupant 1 of `roomA` re-joins and gets symbol X back with
no state change. -/
theorem C7_join_idempotent_witness :
    joinH regA 1 "AB2CD" = (regA, [(1, OutMsg.joined (normCode "AB2CD")
        (symGet roomA.symbols 1)), (1, stateMsg roomA)]) ∧
    (∀ s, symGet roomA.symbols 1 = some s →
      (1, OutMsg.joined (normCode "AB2CD") (some s)) ∈
        (joinH regA 1 "AB2CD").2) :=
  C7_join_idempotent regA 1 "AB2CD" roomA rfl rfl

/-- C8: each reported error condition — room not found, room full, move by
a non-member, waiting for the second player, not your turn — answers the
requester alone with exactly one error message and leaves the registry
untouched. -/
theorem C8_errors_atomic :
    (∀ (R : Registry) (ws : ℕ) (raw : String),
      lookupRoom R (normCode raw) = none →
      joinH R ws raw = (R, [(ws, OutMsg.err "Комната не найдена.")])) ∧
    (∀ (R : Registry) (ws : ℕ) (raw : String) room,
      lookupRoom R (normCode raw) = some room →
      room.includesWs ws = false → room.freeIndex = none →
      joinH R ws raw =
        (R, [(ws, OutMsg.err "Комната уже заполнена (2 игрока).")])) ∧
    (∀ (R : Registry) (ws : ℕ) (raw : String) (i : JIdx) room,
      lookupRoom R (normCode raw) = some room →
      symGet room.symbols ws = none →
      moveH R ws raw i = (R, [(ws, OutMsg.err "Ты не в комнате.")])) ∧
    (∀ (R : Registry) (ws : ℕ) (raw : String) (i : JIdx) room (you : Sym),
      lookupRoom R (normCode raw) = some room →
      symGet room.symbols ws = some you → room.gameOver = false →
      (!i.isNumber || i.ltZero || i.gtEight) = false →
      room.playersCount < 2 →
      moveH R ws raw i =
        (R, [(ws, OutMsg.err "Ждём второго игрока...")])) ∧
    (∀ (R : Registry) (ws : ℕ) (raw : String) (i : JIdx) room (you : Sym),
      lookupRoom R (normCode raw) = some room →
      symGet room.symbols ws = some you → room.gameOver = false →
      (!i.isNumber || i.ltZero || i.gtEight) = false →
      ¬room.playersCount < 2 → room.turn ≠ you →
      moveH R ws raw i =
        (R, [(ws, OutMsg.err "Сейчас не твой ход.")])) :=
  ⟨fun _ _ _ h => joinH_no_room h,
   fun _ _ _ _ hlk hin hfr => joinH_full hlk hin hfr,
   fun _ _ _ _ _ hlk hsym => moveH_not_member hlk hsym,
   fun _ _ _ _ _ _ hlk hsym hgo hnum hcnt =>
     moveH_waiting hlk hsym hgo hnum hcnt,
   fun _ _ _ _ _ _ hlk hsym hgo hnum hcnt htn =>
     moveH_not_turn hlk hsym hgo hnum hcnt htn⟩

/-- C8 witness: one concrete run of each of the five error conditions. -/
theorem C8_errors_atomic_witness :
    joinH ([] : Registry) 5 "QQQQQ" =
      ([], [(5, OutMsg.err "Комната не найдена.")]) ∧
    joinH regA 3 "AB2CD" =
      (regA, [(3, OutMsg.err "Комната уже заполнена (2 игрока).")]) ∧
    moveH regA 3 "AB2CD" (.num ((0 : ℕ) : ℚ)) =
      (regA, [(3, OutMsg.err "Ты не в комнате.")]) ∧
    moveH regHalf 1 "AB2CD" (.num ((0 : ℕ) : ℚ)) =
      (regHalf, [(1, OutMsg.err "Ждём второго игрока...")]) ∧
    moveH regA 2 "AB2CD" (.num ((0 : ℕ) : ℚ)) =
      (regA, [(2, OutMsg.err "Сейчас не твой ход.")]) :=
  ⟨C8_errors_atomic.1 [] 5 "QQQQQ" rfl,
   C8_errors_atomic.2.1 regA 3 "AB2CD" roomA rfl rfl rfl,
   C8_errors_atomic.2.2.1 regA 3 "AB2CD" (.num ((0 : ℕ) : ℚ)) roomA rfl rfl,
   C8_errors_atomic.2.2.2.1 regHalf 1 "AB2CD" (.num ((0 : ℕ) : ℚ)) roomHalf
     Sym.X rfl rfl rfl rfl (by decide),
   C8_errors_atomic.2.2.2.2 regA 2 "AB2CD" (.num ((0 : ℕ) : ℚ)) roomA
     Sym.O rfl rfl rfl rfl (by decide) (by decide)⟩

theorem cleanupWs_split {R₁ : Registry} {c : String} {room : Room}
    (R₂ : Registry) (ws : ℕ) {idx : Fin 2}
    (hfirst : ∀ e ∈ R₁, Room.indexOfWs e.2 ws = none)
    (hidx : Room.indexOfWs room ws = some idx) :
    (cleanupWs (R₁ ++ (c, room) :: R₂) ws).1 =
      if (cleanupRoom room ws idx).p0 = none ∧
         (cleanupRoom room ws idx).p1 = none
      then R₁ ++ R₂ else R₁ ++ (c, cleanupRoom room ws idx) :: R₂ := by
  induction R₁ with
  | nil =>
    simp only [List.nil_append, cleanupWs, hidx]
    by_cases hemp : (cleanupRoom room ws idx).p0 = none ∧
        (cleanupRoom room ws idx).p1 = none
    · rw [if_pos hemp, if_pos hemp]
    · rw [if_neg hemp, if_neg hemp]
  | cons e rest ih =>
    rcases e with ⟨c₁, room₁⟩
    have h1 : Room.indexOfWs room₁ ws = none :=
      hfirst (c₁, room₁) (List.mem_cons_self _ _)
    simp only [List.cons_append, cleanupWs, h1, List.append_eq]
    rw [ih (fun e he => hfirst e (List.mem_cons_of_mem _ he))]
    by_cases hemp : (cleanupRoom room ws idx).p0 = none ∧
        (cleanupRoom room ws idx).p1 = none
    · rw [if_pos hemp, if_pos hemp]
    · rw [if_neg hemp, if_neg hemp]

theorem occ_join (room : Room) (ws : ℕ) (idx : Fin 2) :
    (joinAssign room ws idx).p0 ≠ none ∨ (joinAssign room ws idx).p1 ≠ none := by
  fin_cases idx
  · exact Or.inl (by simp [joinAssign])
  · exact Or.inr (by simp [joinAssign])

/-- C6: every room of a reachable registry has an occupied slot; cleanup
vacates the disconnecting connection's slot and symbol entry in the first
room holding it and deletes the room exactly when both slots are then
empty (one remaining occupant keeps it alive); joining a code that names
no room yields the room-not-found error. -/
theorem C6_registry_occupancy :
    (∀ R, Reachable R → ∀ c room, (c, room) ∈ R →
      (room.p0 ≠ none ∨ room.p1 ≠ none)) ∧
    (∀ (R₁ R₂ : Registry) (c : String) (room : Room) (ws : ℕ) (idx : Fin 2),
      (∀ e ∈ R₁, Room.indexOfWs e.2 ws = none) →
      Room.indexOfWs room ws = some idx →
      symGet (cleanupRoom room ws idx).symbols ws = none ∧
      ((cleanupRoom room ws idx).p0 = none ∧
       (cleanupRoom room ws idx).p1 = none →
        (cleanupWs (R₁ ++ (c, room) :: R₂) ws).1 = R₁ ++ R₂) ∧
      (¬((cleanupRoom room ws idx).p0 = none ∧
         (cleanupRoom room ws idx).p1 = none) →
        (cleanupWs (R₁ ++ (c, room) :: R₂) ws).1 =
          R₁ ++ (c, cleanupRoom room ws idx) :: R₂)) ∧
    (∀ (R : Registry) (ws : ℕ) (raw : String),
      lookupRoom R (normCode raw) = none →
      joinH R ws raw = (R, [(ws, OutMsg.err "Комната не найдена.")])) := by
  refine ⟨?_, ?_, fun R ws raw h => joinH_no_room h⟩
  · intro R hR c room hmem
    exact regOK_reachable (fun r => r.p0 ≠ none ∨ r.p1 ≠ none)
      (fun ws => Or.inl (by simp [mkRoom]))
      (fun room ws idx _ => occ_join room ws idx)
      (fun room i you h _ _ _ => by
        dsimp only
        rw [moveUpdate_p0, moveUpdate_p1]
        exact h)
      (fun room h => h)
      (fun room ws idx _ hemp => by
        rw [not_and_or] at hemp
        exact hemp)
      hR (c, room) hmem
  · intro R₁ R₂ c room ws idx hfirst hidx
    refine ⟨symGet_symDel room.symbols ws, ?_, ?_⟩
    · intro hemp
      rw [cleanupWs_split R₂ ws hfirst hidx, if_pos hemp]
    · intro hemp
      rw [cleanupWs_split R₂ ws hfirst hidx, if_neg hemp]

/-- C6 witness: the room just created by connection 1 has an occupied
slot; disconnecting connection 2 from the full room `roomA` keeps the room
alive with slot 0 still occupied; joining an unknown code errors. -/
theorem C6_registry_occupancy_witness :
    ((mkRoom 1).p0 ≠ none ∨ (mkRoom 1).p1 ≠ none) ∧
    (symGet (cleanupRoom roomA 2 1).symbols 2 = none ∧
      ((cleanupRoom roomA 2 1).p0 = none ∧ (cleanupRoom roomA 2 1).p1 = none →
        (cleanupWs ([] ++ ("AB2CD", roomA) :: []) 2).1 = [] ++ []) ∧
      (¬((cleanupRoom roomA 2 1).p0 = none ∧
         (cleanupRoom roomA 2 1).p1 = none) →
        (cleanupWs ([] ++ ("AB2CD", roomA) :: []) 2).1 =
          [] ++ ("AB2CD", cleanupRoom roomA 2 1) :: [])) ∧
    joinH ([] : Registry) 7 "XXXXX" =
      ([], [(7, OutMsg.err "Комната не найдена.")]) :=
  ⟨C6_registry_occupancy.1 _ (Reachable.create [] 1 gA ⟨0, rfl⟩
      Reachable.init) (createCode [] gA ⟨0, rfl⟩) (mkRoom 1)
      (by simp [createH_fst]),
   C6_registry_occupancy.2.1 [] [] "AB2CD" roomA 2 1
     (fun e he => absurd he (List.not_mem_nil e)) rfl,
   C6_registry_occupancy.2.2 [] 7 "XXXXX" rfl⟩

/-- C9: in every reachable room the number of X cells equals the number of
O cells or exceeds it by exactly one; while the game is running the
difference is 0 exactly when it is X's turn and 1 exactly when it is O's
turn. -/
theorem C9_xo_balance (R : Registry) (hR : Reachable R) (c : String)
    (room : Room) (hmem : (c, room) ∈ R) :
    (cnt Sym.X room.board = cnt Sym.O room.board ∨
     cnt Sym.X room.board = cnt Sym.O room.board + 1) ∧
    (room.gameOver = false →
      ((room.turn = Sym.X ↔ cnt Sym.X room.board = cnt Sym.O room.board) ∧
       (room.turn = Sym.O ↔
         cnt Sym.X room.board = cnt Sym.O room.board + 1))) := by
  have h : Inv9 room := regOK_reachable Inv9 inv9_mkRoom
    (fun room ws idx h => inv9_join room ws idx h)
    (fun room i you h hgo hturn hcell => inv9_move h hgo hturn hcell)
    (fun room h => inv9_restart room)
    (fun room ws idx h _ => inv9_clean room ws idx h)
    hR (c, room) hmem
  obtain ⟨hdiff, himp⟩ := h
  refine ⟨hdiff, fun hgo => ?_⟩
  obtain ⟨hx, ho⟩ := himp hgo
  constructor
  · refine ⟨hx, fun hcount => ?_⟩
    cases hturn : room.turn with
    | X => rfl
    | O => exact absurd (ho hturn) (by omega)
  · refine ⟨ho, fun hcount => ?_⟩
    cases hturn : room.turn with
    | X => exact absurd (hx hturn) (by omega)
    | O => rfl

/-- C9 witness: the invariant instantiated at the room just created by
connection 1 (empty board, X to move, game running). -/
theorem C9_xo_balance_witness :
    (cnt Sym.X (mkRoom 1).board = cnt Sym.O (mkRoom 1).board ∨
     cnt Sym.X (mkRoom 1).board = cnt Sym.O (mkRoom 1).board + 1) ∧
    ((mkRoom 1).gameOver = false →
      (((mkRoom 1).turn = Sym.X ↔
         cnt Sym.X (mkRoom 1).board = cnt Sym.O (mkRoom 1).board) ∧
       ((mkRoom 1).turn = Sym.O ↔
         cnt Sym.X (mkRoom 1).board = cnt Sym.O (mkRoom 1).board + 1))) :=
  C9_xo_balance _ (Reachable.create [] 1 gA ⟨0, rfl⟩ Reachable.init)
    (createCode [] gA ⟨0, rfl⟩) (mkRoom 1) (by simp [createH_fst])

/-- C10 (amended): a move whose index is a number passing the range
comparisons (such as 2.5 or NaN) but not an integer cell index is never
accepted: the registry — hence board, turn and gameOver — is unchanged,
and when the earlier checks (membership, game running, both players
present, requester's turn) pass, no message at all is sent, the rejection
happening at the final empty-cell check because the board lookup at a
non-integer index is never the empty string; an earlier reported check may
still send its own error. -/
theorem C10_nonint_index (R : Registry) (ws : ℕ) (raw : String) (i : JIdx)
    (hnumb : i.isNumber = true) (hlt : i.ltZero = false)
    (hgt : i.gtEight = false) (hint : isIntIdx i = false) :
    (moveH R ws raw i).1 = R ∧
    (∀ room you, lookupRoom R (normCode raw) = some room →
      symGet room.symbols ws = some you → room.gameOver = false →
      ¬room.playersCount < 2 → room.turn = you →
      (moveH R ws raw i).2 = []) := by
  have hnum : (!i.isNumber || i.ltZero || i.gtEight) = false := by
    rw [hnumb, hlt, hgt]
    rfl
  have hcellN : ∀ b : List Cell, boardAt b i = none :=
    fun b => boardAt_nonint hnumb hgt hint
  constructor
  · cases hlk : lookupRoom R (normCode raw) with
    | none => rw [moveH_no_room hlk]
    | some room =>
      cases hsym : symGet room.symbols ws with
      | none => rw [moveH_not_member hlk hsym]
      | some you =>
        by_cases hgo : room.gameOver = true
        · rw [moveH_game_over hlk hsym hgo]
        · rw [Bool.not_eq_true] at hgo
          by_cases hcnt : room.playersCount < 2
          · rw [moveH_waiting hlk hsym hgo hnum hcnt]
          · by_cases htn : room.turn ≠ you
            · rw [moveH_not_turn hlk hsym hgo hnum hcnt htn]
            · rw [not_not] at htn
              rw [moveH_cell_taken hlk hsym hgo hnum hcnt htn
                  (by rw [hcellN]; simp)]
  · intro room you hlk hsym hgo hcnt htn
    rw [moveH_cell_taken hlk hsym hgo hnum hcnt htn
        (by rw [hcellN]; simp)]

/-- C10 counterexample: with the full room `regA` and the non-integer
in-range index 5/2, the requester out of turn does receive an error
message, contradicting the claim that no error is sent. -/
theorem C10_counterexample :
    (JIdx.num qHalf).isNumber = true ∧
    (JIdx.num qHalf).ltZero = false ∧
    (JIdx.num qHalf).gtEight = false ∧
    isIntIdx (.num qHalf) = false ∧
    (moveH regA 2 "AB2CD" (.num qHalf)).2 =
      [(2, OutMsg.err "Сейчас не твой ход.")] :=
  ⟨rfl, rfl, rfl, rfl, rfl⟩

/-- C10 witness: NaN passes the range comparisons; a NaN-indexed move by
the in-turn player of the full room changes nothing and sends nothing. -/
theorem C10_nonint_index_witness :
    (moveH regA 1 "AB2CD" JIdx.nan).1 = regA ∧
    (moveH regA 1 "AB2CD" JIdx.nan).2 = [] :=
  ⟨(C10_nonint_index regA 1 "AB2CD" JIdx.nan rfl rfl rfl rfl).1,
   (C10_nonint_index regA 1 "AB2CD" JIdx.nan rfl rfl rfl rfl).2
     roomA Sym.X rfl rfl rfl (by decide) rfl⟩

end TTT
